import Mathlib

set_option maxRecDepth 8192

/-!
Shallow embedding of the kolscam server's trade-classification core
(src/server.js): the transaction parser `parseTransaction`, the symbol
resolver, the trade validity filter `isValidTrade`, the trade table insert
(`INSERT OR IGNORE` on a unique signature column), the token-cache merge
upsert, the recent-trades feed diversity filter, the scan-phase guards
and the deep-backfill pagination fetch.

JavaScript conventions are made explicit: nullable/optional values become
`Option`, JS truthiness of strings/numbers is spelled out in small helper
functions, and JS numbers are modelled exactly as fractions of integers
(`Frac`, value `n / d`), with `Option Frac` where `NaN` is reachable
(`none` standing for `NaN`). All operations in play are exact on decimal
data, so no floating-point rounding is modelled.
-/

/-- Exact rational model of a (non-`NaN`) JS number: the value `n / d`.
Denominators are positive in every value the embedded code constructs
(inputs are decimal literals; the only divisors are positive powers of ten),
and the comparison/equality helpers below are sign-corrected so that they
agree with the value semantics for every nonzero denominator. -/
structure Frac where
  n : Int
  d : Int
deriving DecidableEq, Repr

/-- `10 ^ k` as an integer. -/
def pow10 : Nat → Int
  | 0 => 1
  | k + 1 => 10 * pow10 k

/-- Embed an integer as a fraction. -/
def Frac.ofInt (i : Int) : Frac := ⟨i, 1⟩

/-- Value-level addition. -/
def Frac.add (a b : Frac) : Frac := ⟨a.n * b.d + b.n * a.d, a.d * b.d⟩

/-- Value-level subtraction. -/
def Frac.sub (a b : Frac) : Frac := ⟨a.n * b.d - b.n * a.d, a.d * b.d⟩

/-- Value-level multiplication. -/
def Frac.mul (a b : Frac) : Frac := ⟨a.n * b.n, a.d * b.d⟩

/-- Value-level division. -/
def Frac.div (a b : Frac) : Frac := ⟨a.n * b.d, a.d * b.n⟩

/-- `Math.abs`. -/
def Frac.abs (a : Frac) : Frac := ⟨a.n.natAbs, a.d.natAbs⟩

/-- The value is zero (JS `x === 0`, the falsy number). -/
def Frac.isZero (a : Frac) : Bool := a.n = 0

/-- Value-level strict comparison `a < b`, sign-corrected for the
denominators. -/
def Frac.lt (a b : Frac) : Bool := (a.n * b.d - b.n * a.d) * (a.d * b.d) < 0

/-- Value-level `0 < a`. -/
def Frac.pos (a : Frac) : Bool := 0 < a.n * a.d

/-- Value-level `a ≤ 0`. -/
def Frac.nonpos (a : Frac) : Bool := a.n * a.d ≤ 0

/-- Value-level equality `a = b` (cross multiplication). -/
def Frac.eqv (a b : Frac) : Bool := a.n * b.d = b.n * a.d

/-- Floor of the value (for nonzero denominators). -/
def Frac.floor (a : Frac) : Int :=
  if a.d < 0 then Int.fdiv (-a.n) (-a.d) else Int.fdiv a.n a.d

/-- JS truthiness of a nullable string: `null`/`undefined` and `''` are falsy. -/
def jsStrTruthy : Option String → Bool
  | none => false
  | some s => s ≠ ""

/-- JS `a || b` for a nullable string `a` with a plain-string default `b`. -/
def jsOrStr (a : Option String) (b : String) : String :=
  match a with
  | none => b
  | some s => if s = "" then b else s

/-- JS `a || b` where both operands are nullable strings. -/
def jsOrOptStr (a b : Option String) : Option String :=
  if jsStrTruthy a then a else b

/-- JS `a || b` for a nullable number `a` (`none` = `undefined`/`NaN`, both
falsy; `0` is falsy too) with default `b`. -/
def jsOrNum (a : Option Frac) (b : Frac) : Frac :=
  match a with
  | none => b
  | some q => if q.isZero then b else q

/-- JS `x > 0` where `x` may be `NaN` (`none`): `NaN > 0` is false. -/
def jsNumPos : Option Frac → Bool
  | none => false
  | some q => q.pos

/-- JS `x <= 0` where `x` may be `NaN` (`none`): `NaN <= 0` is false. -/
def jsNumLeZero : Option Frac → Bool
  | none => false
  | some q => q.nonpos

/-- Model of `parseFloat(x.toFixed(4))`: round to four decimal places
(round-half-up; every concrete value in play is exact at 4 decimals). -/
def roundTo4 (q : Frac) : Frac :=
  ⟨Frac.floor ((q.mul (Frac.ofInt 10000)).add ⟨1, 2⟩), 10000⟩

/-- ASCII lower-casing of a string (JS `toLowerCase` on the data in play). -/
def strToLower (s : String) : String := ⟨s.data.map Char.toLower⟩

/-- ASCII upper-casing of a string (JS `toUpperCase` on the data in play). -/
def strToUpper (s : String) : String := ⟨s.data.map Char.toUpper⟩

/-- `hay` starts with `needle` (character lists). -/
def startsWithL : List Char → List Char → Bool
  | _, [] => true
  | [], _ :: _ => false
  | h :: hs, n :: ns => h = n && startsWithL hs ns

/-- `hay` contains `needle` as a contiguous substring (character lists). -/
def containsSubL (hay needle : List Char) : Bool :=
  match hay with
  | [] => startsWithL [] needle
  | _ :: rest => startsWithL hay needle || containsSubL rest needle

/-- JS `s.includes(sub)`. -/
def strContains (s sub : String) : Bool := containsSubL s.data sub.data

/-- JS `s.startsWith(p)`. -/
def strStarts (s p : String) : Bool := startsWithL s.data p.data

/-- ASCII whitespace, the `\s` class on the data in play. -/
def isWsChar (c : Char) : Bool := c = ' ' || c = '\t' || c = '\n' || c = '\r'

/-- The `[\d,.]` character class of the swap-description regex. -/
def isAmtChar (c : Char) : Bool := c.isDigit || c = ',' || c = '.'

/-- Munch one-or-more characters satisfying `p`; `none` if the first
character does not satisfy `p`. Returns (munched, rest). -/
def munch (p : Char → Bool) (cs : List Char) : Option (List Char × List Char) :=
  let s := cs.span p
  if s.1 = [] then none else some s

/-- Match a literal case-insensitively at the head of `cs`; returns the rest. -/
def litCI : List Char → List Char → Option (List Char)
  | [], cs => some cs
  | _ :: _, [] => none
  | l :: ls, c :: cs => if c.toLower = l.toLower then litCI ls cs else none

/-- Match `/swapped\s+([\d,.]+)\s+(\S+)\s+for\s+([\d,.]+)\s+(\S+)/i` anchored at
the head of `cs`; yields the four captures (amt1, tok1, amt2, tok2). Each
quantified class is disjoint from what follows it, so maximal munch agrees
with the backtracking regex engine on this pattern. -/
def swapMatchAt (cs : List Char) : Option (String × String × String × String) :=
  (litCI "swapped".data cs).bind fun r1 =>
  (munch isWsChar r1).bind fun s1 =>
  (munch isAmtChar s1.2).bind fun s2 =>
  (munch isWsChar s2.2).bind fun s3 =>
  (munch (fun c => !(isWsChar c)) s3.2).bind fun s4 =>
  (munch isWsChar s4.2).bind fun s5 =>
  (litCI "for".data s5.2).bind fun r6 =>
  (munch isWsChar r6).bind fun s6 =>
  (munch isAmtChar s6.2).bind fun s7 =>
  (munch isWsChar s7.2).bind fun s8 =>
  (munch (fun c => !(isWsChar c)) s8.2).map fun s9 =>
  (⟨s2.1⟩, ⟨s4.1⟩, ⟨s7.1⟩, ⟨s9.1⟩)

/-- First match of the swap-description regex anywhere in the string
(JS `String.match` tries successive start positions left to right). -/
def swapMatchFrom : List Char → Option (String × String × String × String)
  | [] => none
  | c :: cs => (swapMatchAt (c :: cs)).orElse fun _ => swapMatchFrom cs

/-- `description.match(/swapped\s+([\d,.]+)\s+(\S+)\s+for\s+([\d,.]+)\s+(\S+)/i)`. -/
def descSwapMatch (s : String) : Option (String × String × String × String) :=
  swapMatchFrom s.data

/-- Numeric value of a digit list (most significant first). -/
def digitsVal (ds : List Char) : Nat := ds.foldl (fun a c => a * 10 + (c.toNat - 48)) 0

/-- JS `parseFloat` on the digit/dot strings produced by the swap regex after
comma stripping: longest valid numeric prefix, `none` (`NaN`) when no digits
lead and no `.digits` follows. -/
def jsParseFloat (s : String) : Option Frac :=
  let sp := s.data.span Char.isDigit
  match sp.2 with
  | '.' :: r2 =>
      let fp := r2.span Char.isDigit
      if sp.1.isEmpty && fp.1.isEmpty then none
      else some ⟨(digitsVal sp.1 : Int) * pow10 fp.1.length + (digitsVal fp.1 : Int),
                 pow10 fp.1.length⟩
  | _ => if sp.1.isEmpty then none else some (Frac.ofInt (digitsVal sp.1))

/-- JS `s.replace(/,/g, '')`. -/
def stripCommas (s : String) : String := ⟨s.data.filter (fun c => c ≠ ',')⟩

/-- The wrapped-SOL mint address (`SOL_MINT` in src/server.js). -/
def SOL_MINT : String := "So11111111111111111111111111111111111111112"

/-- Token metadata entry as produced by `batchGetTokenMetadata`. -/
structure TokenMeta where
  name : String
  symbol : String
  image : String
deriving DecidableEq, Repr

/-- A `token_cache` row as read back by `getCachedToken`. -/
structure CacheRow where
  name : String
  symbol : String
  image : String
  mcap : Frac
  priceUsd : Frac
  priceChange24h : Frac
deriving DecidableEq, Repr

/-- One entry of a Helius `nativeTransfers` list (`amount` is lamports). -/
structure NativeTransfer where
  fromUserAccount : Option String
  toUserAccount : Option String
  amount : Option Frac
deriving DecidableEq, Repr

/-- One entry of a Helius `tokenTransfers` list. -/
structure TokenTransfer where
  fromUserAccount : Option String
  toUserAccount : Option String
  mint : Option String
  tokenAmount : Option Frac
deriving DecidableEq, Repr

/-- A `rawTokenAmount` object of a swap-event token leg. -/
structure RawTokenAmount where
  tokenAmount : Frac
  decimals : Option Nat
deriving DecidableEq, Repr

/-- A token input/output leg of a Helius swap event. -/
structure SwapLeg where
  mint : Option String
  rawTokenAmount : Option RawTokenAmount
  tokenAmount : Option Frac
deriving DecidableEq, Repr

/-- A native (SOL) input/output leg of a Helius swap event; `amount` is lamports. -/
structure NativeLeg where
  amount : Frac
deriving DecidableEq, Repr

/-- The `events.swap` object of a Helius enhanced transaction. -/
structure SwapEvent where
  nativeInput : Option NativeLeg
  nativeOutput : Option NativeLeg
  tokenInputs : Option (List SwapLeg)
  tokenOutputs : Option (List SwapLeg)
deriving DecidableEq, Repr

/-- A raw Helius enhanced transaction, restricted to the fields
`parseTransaction` and `fetchPaginatedTransactions` read. -/
structure Tx where
  signature : Option String
  timestamp : Option Nat
  type : Option String
  description : Option String
  nativeTransfers : Option (List NativeTransfer)
  tokenTransfers : Option (List TokenTransfer)
  eventsSwap : Option SwapEvent
deriving DecidableEq, Repr

/-- A transaction with every field absent; concrete inputs are built from it. -/
def emptyTx : Tx :=
  { signature := none, timestamp := none, type := none, description := none,
    nativeTransfers := none, tokenTransfers := none, eventsSwap := none }

/-- The two trade directions `parseTransaction` ever assigns. -/
inductive TradeAction where
  | buy
  | sell
deriving DecidableEq, Repr

/-- The result object built by `parseTransaction`. `amountSol` is
`Option Frac` because Strategy 1 stores a raw `parseFloat` result, which can
be `NaN` (modelled as `none`); everywhere else it is a real number. -/
structure TradeResult where
  signature : Option String
  timestamp : Option Nat
  kolName : String
  kolAvatar : String
  action : Option TradeAction
  tokenSymbol : Option String
  tokenMint : String
  tokenAmount : Frac
  amountSol : Option Frac
deriving DecidableEq, Repr

/-- The token metadata map passed to `parseTransaction`: a possibly-absent JS
object, modelled as an association list preserving key insertion order
(`Object.entries` iterates in that order); a key can map to `null`. -/
abbrev MetaMap := Option (List (String × Option TokenMeta))

/-- First association for a key. -/
def assocFind {α : Type} : List (String × α) → String → Option α
  | [], _ => none
  | p :: rest, k => if p.1 = k then some p.2 else assocFind rest k

/-- JS `tokenMetadataMap?.[mint]`: `undefined` map, missing key and a `null`
value all collapse to `none` (the code only tests the result's truthiness). -/
def jsIndex (mm : MetaMap) (mint : String) : Option TokenMeta :=
  match mm with
  | none => none
  | some l =>
    match assocFind l mint with
    | none => none
    | some v => v

/-- The `resolveSymbol` helper nested in `parseTransaction`
(src/server.js lines 327-338): metadata map first (symbol truthy and of
length ≤ 15), then the persistent token cache (symbol truthy); `null` for a
falsy mint and for the wrapped-SOL mint. `cache` stands for the
`getCachedToken` prepared statement. -/
def resolveSymbol (mm : MetaMap) (cache : String → Option CacheRow) (mint : String) :
    Option String :=
  if mint = "" ∨ mint = SOL_MINT then none
  else
    match jsIndex mm mint with
    | some meta =>
      if meta.symbol ≠ "" ∧ meta.symbol.length ≤ 15 then some meta.symbol
      else
        match cache mint with
        | some row => if row.symbol ≠ "" then some row.symbol else none
        | none => none
    | none =>
      match cache mint with
      | some row => if row.symbol ≠ "" then some row.symbol else none
      | none => none

/-- The `symbolFromDescription` helper nested in `parseTransaction`:
on a swap-pattern match, the non-SOL side of the pair. -/
def symbolFromDescription (desc : Option String) : Option String :=
  match desc with
  | none => none
  | some d =>
    match descSwapMatch d with
    | some (_, tok1, _, tok2) => some (if strToUpper tok1 = "SOL" then tok2 else tok1)
    | none => none

/-- The non-trade transaction types skipped by the pre-filter
(`NON_TRADE_TYPES` in src/server.js). -/
def NON_TRADE_TYPES : List String :=
  ["TRANSFER", "BURN", "BURN_NFT", "COMPRESSED_NFT_MINT",
   "COMPRESSED_NFT_TRANSFER", "COMPRESSED_NFT_BURN",
   "NFT_MINT", "NFT_SALE", "NFT_LISTING", "NFT_CANCEL_LISTING",
   "STAKE", "UNSTAKE", "INIT_BANK", "SET_BANK_FLAGS",
   "CLOSE_POSITION", "WITHDRAW", "DEPOSIT"]

/-- `tx.type && NON_TRADE_TYPES.has(tx.type)`. -/
def nonTradeTypeHit (tx : Tx) : Bool :=
  match tx.type with
  | none => false
  | some t => t ≠ "" && NON_TRADE_TYPES.contains t

/-- The description-based pre-filter (src/server.js lines 307-311): the
lower-cased description contains `' transferred '` without containing
`'swap'`, or starts with `'burned '`, `'close '` or `'staked '`. -/
def descPrefilterHit (tx : Tx) : Bool :=
  match tx.description with
  | none => false
  | some desc =>
    let d := strToLower desc
    (strContains d " transferred " && !(strContains d "swap")) ||
    strStarts d "burned " || strStarts d "close " || strStarts d "staked "

/-- First token transfer with a truthy non-SOL mint, yielding
(`primaryMint`, `primaryTokenAmount`). -/
def findPrimary : List TokenTransfer → Option (String × Frac)
  | [] => none
  | t :: rest =>
    match t.mint with
    | some m =>
      if m ≠ "" ∧ m ≠ SOL_MINT then some (m, (jsOrNum t.tokenAmount (Frac.ofInt 0)).abs)
      else findPrimary rest
    | none => findPrimary rest

/-- The `primaryMint`/`primaryTokenAmount` pair computed at the top of
`parseTransaction` (defaults `''` and `0`). -/
def primaryPair (tx : Tx) : String × Frac :=
  match tx.tokenTransfers with
  | none => ("", Frac.ofInt 0)
  | some ts =>
    match findPrimary ts with
    | none => ("", Frac.ofInt 0)
    | some p => p

/-- `Math.abs(leg.rawTokenAmount?.tokenAmount ? raw/10^decimals :
(leg.tokenAmount || primaryTokenAmount))` — the token-amount expression of
Strategy 0. -/
def legAmount (leg : SwapLeg) (primaryTokenAmount : Frac) : Frac :=
  let v : Frac :=
    match leg.rawTokenAmount with
    | some raw =>
      if !raw.tokenAmount.isZero then
        raw.tokenAmount.div (Frac.ofInt (pow10 (raw.decimals.getD 0)))
      else jsOrNum leg.tokenAmount primaryTokenAmount
    | none => jsOrNum leg.tokenAmount primaryTokenAmount
  v.abs

/-- The conclusiveness check of Strategy 0
(`result.action && result.amountSol > 0 && result.tokenSymbol`). -/
def conclusiveCheck (r : TradeResult) : Bool :=
  r.action.isSome && jsNumPos r.amountSol && jsStrTruthy r.tokenSymbol

/-- Strategy 1's fallback mint search: first metadata-map entry whose symbol
equals the parsed token symbol (empty string when the map is absent or
no entry matches). -/
def mintFromMeta (mm : MetaMap) (sym : String) : String :=
  match mm with
  | none => ""
  | some l =>
    match l.find? (fun p => match p.2 with
      | some m => m.symbol = sym
      | none => false) with
    | some p => p.1
    | none => ""

/-- Largest-magnitude token transfer into / out of the wallet
(Strategy 2's `tokenInInfo` / `tokenOutInfo` accumulation; strictly-greater
comparison keeps the first maximum). -/
def tokenInOutInfo (wallet : String) (tts : List TokenTransfer) :
    Option (String × Frac) × Option (String × Frac) :=
  tts.foldl
    (fun acc tt =>
      match tt.mint with
      | none => acc
      | some m =>
        if m = "" ∨ m = SOL_MINT then acc
        else
          let amt := (jsOrNum tt.tokenAmount (Frac.ofInt 0)).abs
          if amt.isZero then acc
          else
            let inInfo :=
              if tt.toUserAccount = some wallet then
                match acc.1 with
                | none => some (m, amt)
                | some p => if Frac.lt p.2 amt then some (m, amt) else some p
              else acc.1
            let outInfo :=
              if tt.fromUserAccount = some wallet then
                match acc.2 with
                | none => some (m, amt)
                | some p => if Frac.lt p.2 amt then some (m, amt) else some p
              else acc.2
            (inInfo, outInfo))
    (none, none)

/-- Lamports sent from / received by the wallet across `nativeTransfers`
(Strategy 2's `solOut` and `solIn`). -/
def solOutIn (wallet : String) (nts : List NativeTransfer) : Frac × Frac :=
  nts.foldl
    (fun acc nt =>
      let o := if nt.fromUserAccount = some wallet
               then acc.1.add (jsOrNum nt.amount (Frac.ofInt 0)) else acc.1
      let i := if nt.toUserAccount = some wallet
               then acc.2.add (jsOrNum nt.amount (Frac.ofInt 0)) else acc.2
      (o, i))
    (Frac.ofInt 0, Frac.ofInt 0)

/-- The lamports-to-SOL scale `1e9`. -/
def LAMPORTS : Frac := Frac.ofInt 1000000000

/-- The 0.001-SOL dust threshold of Strategy 2. -/
def DUST : Frac := ⟨1, 1000⟩

/-- The `result` object as initialised at the top of `parseTransaction`
(src/server.js lines 284-294). -/
def baseResult (tx : Tx) (kolName kolAvatar : Option String) : TradeResult :=
  { signature := tx.signature, timestamp := tx.timestamp,
    kolName := jsOrStr kolName "Unknown", kolAvatar := jsOrStr kolAvatar "/logo.png",
    action := none, tokenSymbol := none, tokenMint := "",
    tokenAmount := Frac.ofInt 0, amountSol := some (Frac.ofInt 0) }

/-- Strategy 0 of `parseTransaction` (src/server.js lines 351-380): Helius
swap events. Mutates `result` when a native-SOL leg pairs with a non-SOL
token leg; returns the (possibly updated) result object. -/
def strategy0Swap (tx : Tx) (mm : MetaMap) (cache : String → Option CacheRow)
    (base : TradeResult) (primary : String × Frac) : TradeResult :=
  match tx.eventsSwap with
  | none => base
  | some swap =>
    let tokenIn := (swap.tokenInputs.getD []).find? (fun t => t.mint ≠ some SOL_MINT)
    let tokenOut := (swap.tokenOutputs.getD []).find? (fun t => t.mint ≠ some SOL_MINT)
    match swap.nativeInput, tokenOut with
    | some nIn, some tOut =>
      if nIn.amount.pos then
        let mint := jsOrStr tOut.mint primary.1
        { base with
          action := some TradeAction.buy
          amountSol := some (roundTo4 (nIn.amount.div LAMPORTS))
          tokenMint := mint
          tokenAmount := legAmount tOut primary.2
          tokenSymbol := jsOrOptStr (resolveSymbol mm cache mint)
            (symbolFromDescription tx.description) }
      else
        match swap.nativeOutput, tokenIn with
        | some nOut, some tIn =>
          if nOut.amount.pos then
            let mint := jsOrStr tIn.mint primary.1
            { base with
              action := some TradeAction.sell
              amountSol := some (roundTo4 (nOut.amount.div LAMPORTS))
              tokenMint := mint
              tokenAmount := legAmount tIn primary.2
              tokenSymbol := jsOrOptStr (resolveSymbol mm cache mint)
                (symbolFromDescription tx.description) }
          else base
        | _, _ => base
    | _, _ =>
      match swap.nativeOutput, tokenIn with
      | some nOut, some tIn =>
        if nOut.amount.pos then
          let mint := jsOrStr tIn.mint primary.1
          { base with
            action := some TradeAction.sell
            amountSol := some (roundTo4 (nOut.amount.div LAMPORTS))
            tokenMint := mint
            tokenAmount := legAmount tIn primary.2
            tokenSymbol := jsOrOptStr (resolveSymbol mm cache mint)
              (symbolFromDescription tx.description) }
        else base
      | _, _ => base

/-- Strategy 1 of `parseTransaction` (src/server.js lines 386-414), applied
to the four captures of a successful description match: Buy when the first
token is SOL, Sell when the second is, `null` for a token-to-token swap
(the whole function returns at this point, whatever the outcome). -/
def strategy1Desc (mm : MetaMap) (base : TradeResult) (primary : String × Frac)
    (amt1 tok1 amt2 tok2 : String) : Option TradeResult :=
  if strToUpper tok1 = "SOL" then
    let sym := tok2
    let mint := if primary.1 ≠ "" then primary.1 else mintFromMeta mm sym
    some { base with
           action := some TradeAction.buy
           tokenSymbol := some sym
           amountSol := jsParseFloat (stripCommas amt1)
           tokenAmount := jsOrNum (jsParseFloat (stripCommas amt2)) primary.2
           tokenMint := mint }
  else if strToUpper tok2 = "SOL" then
    let sym := tok1
    let mint := if primary.1 ≠ "" then primary.1 else mintFromMeta mm sym
    some { base with
           action := some TradeAction.sell
           tokenSymbol := some sym
           amountSol := jsParseFloat (stripCommas amt2)
           tokenAmount := jsOrNum (jsParseFloat (stripCommas amt1)) primary.2
           tokenMint := mint }
  else none

/-- The candidate result of Strategy 2 (src/server.js lines 421-460): net
SOL movement against the largest token transfer, updating the result object
Strategy 0 left behind (`afterS0`) when one direction wins. -/
def strategy2Candidate (wallet : String) (nts : List NativeTransfer)
    (tts : List TokenTransfer) (afterS0 : TradeResult) : TradeResult :=
  let oi := solOutIn wallet nts
  let info := tokenInOutInfo wallet tts
  let netSolSpent := (oi.1.sub oi.2).div LAMPORTS
  let netSolGained := (oi.2.sub oi.1).div LAMPORTS
  match info.1, info.2 with
  | some tIn, none =>
    if Frac.lt DUST netSolSpent then
      { afterS0 with
        action := some TradeAction.buy
        amountSol := some (roundTo4 netSolSpent)
        tokenMint := tIn.1
        tokenAmount := tIn.2 }
    else afterS0
  | none, some tOut =>
    if Frac.lt DUST netSolGained then
      { afterS0 with
        action := some TradeAction.sell
        amountSol := some (roundTo4 netSolGained)
        tokenMint := tOut.1
        tokenAmount := tOut.2 }
    else afterS0
  | _, _ => afterS0

/-- Strategy 2 of `parseTransaction` (src/server.js lines 421-466): requires
raw transfer lists, a positive candidate (`result.action && result.amountSol
> 0`, possibly from Strategy-0 leftovers) and a truthy resolved symbol. -/
def strategy2Net (tx : Tx) (mm : MetaMap) (cache : String → Option CacheRow)
    (wallet : String) (afterS0 : TradeResult) : Option TradeResult :=
  match tx.nativeTransfers, tx.tokenTransfers with
  | some nts, some tts =>
    if tts.length > 0 then
      let r2 := strategy2Candidate wallet nts tts afterS0
      if r2.action.isSome && jsNumPos r2.amountSol then
        let sym2 :=
          jsOrOptStr (resolveSymbol mm cache r2.tokenMint)
            (symbolFromDescription tx.description)
        let r3 := { r2 with tokenSymbol := sym2 }
        if jsStrTruthy r3.tokenSymbol then some r3 else none
      else none
    else none
  | _, _ => none

/-- `parseTransaction(tx, kolName, kolAvatar, walletAddress, tokenMetadataMap)`
(src/server.js lines 282-469): the pre-filters followed by the
three-strategy cascade. `cache` stands for the `getCachedToken` prepared
statement consulted by the nested `resolveSymbol`. -/
def parseTransaction (tx : Tx) (kolName kolAvatar : Option String)
    (walletAddress : String) (mm : MetaMap) (cache : String → Option CacheRow) :
    Option TradeResult :=
  if nonTradeTypeHit tx then none
  else if descPrefilterHit tx then none
  else
    let base := baseResult tx kolName kolAvatar
    let primary := primaryPair tx
    let afterS0 := strategy0Swap tx mm cache base primary
    if conclusiveCheck afterS0 then some afterS0
    else
      match tx.description.bind (fun d => descSwapMatch d) with
      | some (amt1, tok1, amt2, tok2) => strategy1Desc mm base primary amt1 tok1 amt2 tok2
      | none => strategy2Net tx mm cache walletAddress afterS0

/-- The fixed symbol deny-list (`SKIP_TOKENS` in src/server.js):
stablecoins, liquid-staking tokens and major infrastructure tokens. -/
def SKIP_TOKENS : List String :=
  ["SOL", "WSOL", "USDC", "USDT", "USDS", "USD1", "EURC", "DAI", "FRAX", "TUSD",
   "BUSD", "USDH", "UXD",
   "mSOL", "jitoSOL", "bSOL", "stSOL", "JitoSOL", "INF", "hSOL", "vSOL", "jupSOL",
   "LST",
   "WETH", "WBTC", "RAY", "JLP", "JTO", "PYTH", "JUP", "ORCA", "MNDE", "STEP",
   "BONK"]

/-- The fixed mint deny-list (`SKIP_MINTS` in src/server.js). -/
def SKIP_MINTS : List String :=
  ["So11111111111111111111111111111111111111112",
   "EPjFWdd5AufqSSqeM2qN1xzybapC8G4wEGGkZwyTDt1v",
   "Es9vMFrzaCERmJfrF4H2FYD4KCoNkY11McCe8BenwNYB",
   "BJUH9GJLaMSLV1E7B3SQLCy9eCfyr6zsrm3WYMFQmpuN"]

/-- The symbol looks like a raw hex string: `/^[a-f0-9]{6,}$/i`. -/
def isHexChar (c : Char) : Bool :=
  c.isDigit || ('a' ≤ c && c ≤ 'f') || ('A' ≤ c && c ≤ 'F')

/-- `/^[a-f0-9]{6,}$/i.test(sym)`. -/
def hexLike (s : String) : Bool := 6 ≤ s.length && s.data.all isHexChar

/-- `isValidTrade(trade)` (src/server.js lines 487-498). The input may be
`null` (the parser's output is passed straight in). -/
def isValidTrade : Option TradeResult → Bool
  | none => false
  | some t =>
    if !t.action.isSome then false
    else
      match t.tokenSymbol with
      | none => false
      | some sym =>
        if sym = "" then false
        else if 15 < sym.length then false
        else if hexLike sym then false
        else if jsNumLeZero t.amountSol then false
        else if SKIP_TOKENS.contains sym then false
        else if t.tokenMint ≠ "" && SKIP_MINTS.contains t.tokenMint then false
        else true

/-- A stored `kol_trades` row. Every ingestion path guards on a truthy
`trade.signature` before inserting, so signatures are plain strings here. -/
structure TradeRow where
  wallet : String
  kolName : String
  kolAvatar : String
  action : String
  tokenSymbol : String
  amountSol : Frac
  signature : String
  txTimestamp : Nat
  tokenMint : String
  tokenAmount : Frac
deriving DecidableEq, Repr

/-- `insertTrade` (src/server.js lines 1562-1565): `INSERT OR IGNORE` into
`kol_trades`, whose `signature` column is `UNIQUE` — a duplicate signature
leaves the table unchanged; the operation is total (never an error). -/
def insertTrade (tbl : List TradeRow) (r : TradeRow) : List TradeRow :=
  if tbl.any (fun x => x.signature = r.signature) then tbl else tbl ++ [r]

/-- Number of stored rows carrying signature `s`. -/
def sigCount (tbl : List TradeRow) (s : String) : Nat :=
  (tbl.filter (fun x => x.signature = s)).length

/-- The signature-uniqueness invariant of the `kol_trades` table. -/
def sigUnique (tbl : List TradeRow) : Prop := ∀ s, sigCount tbl s ≤ 1

/-- The incoming values of one `upsertTokenMarketData` call
(mint plus the seven bound parameters minus the mint). -/
structure MarketUpsert where
  mint : String
  name : String
  symbol : String
  image : String
  mcap : Frac
  priceUsd : Frac
  priceChange24h : Frac
deriving DecidableEq, Repr

/-- The `ON CONFLICT(mint) DO UPDATE` merge of `upsertTokenMarketData`
(src/server.js lines 1548-1559): market fields always overwrite; name,
symbol and image keep the existing value when the incoming one is `''`. -/
def mergeRow (old : CacheRow) (inc : MarketUpsert) : CacheRow :=
  { name := if inc.name ≠ "" then inc.name else old.name,
    symbol := if inc.symbol ≠ "" then inc.symbol else old.symbol,
    image := if inc.image ≠ "" then inc.image else old.image,
    mcap := inc.mcap, priceUsd := inc.priceUsd, priceChange24h := inc.priceChange24h }

/-- `upsertTokenMarketData` over the `token_cache` table, modelled as an
association list keyed by mint (the primary key): insert when the mint is
absent, merge via `mergeRow` when present. -/
def upsertTokenMarketData (tbl : List (String × CacheRow)) (inc : MarketUpsert) :
    List (String × CacheRow) :=
  match assocFind tbl inc.mint with
  | none => tbl ++ [(inc.mint,
      { name := inc.name, symbol := inc.symbol, image := inc.image,
        mcap := inc.mcap, priceUsd := inc.priceUsd,
        priceChange24h := inc.priceChange24h })]
  | some _ => tbl.map (fun p => if p.1 = inc.mint then (p.1, mergeRow p.2 inc) else p)

/-- A row of the recent-trades feed query result, restricted to the fields
the diversity loop reads. -/
structure FeedRow where
  kolName : String
  wallet : String
  signature : String
deriving DecidableEq, Repr

/-- `t.kol_name || t.wallet || 'unknown'` — the KOL key of the diversity loop. -/
def feedKey (t : FeedRow) : String :=
  if t.kolName ≠ "" then t.kolName else if t.wallet ≠ "" then t.wallet else "unknown"

/-- The diversity loop of `GET /api/trades/feed` (src/server.js lines
1011-1021): scan the (newest-first) trades, count every scanned trade per
KOL key, push a trade while its key has been seen at most twice, stop as
soon as the page holds `limit` trades. -/
def diversityLoop (limit : Nat) : List FeedRow → (String → Nat) → List FeedRow →
    List FeedRow
  | [], _, acc => acc
  | t :: rest, counts, acc =>
    let key := feedKey t
    let c := counts key + 1
    let counts' := fun k => if k = key then c else counts k
    let acc' := if c ≤ 2 then acc ++ [t] else acc
    if limit ≤ acc'.length then acc' else diversityLoop limit rest counts' acc'

/-- The `diverseTrades` result of the feed route for a newest-first trade
list. -/
def feedDiversity (limit : Nat) (ts : List FeedRow) : List FeedRow :=
  diversityLoop limit ts (fun _ => 0) []

/-- Specification-side greedy selection, following the spec's words: scan
newest-first and keep a trade exactly when fewer than 2 trades of its KOL
have already been kept and the page is not yet full. -/
def greedySelect (limit : Nat) : List FeedRow → (String → Nat) → Nat → List FeedRow
  | [], _, _ => []
  | t :: rest, kept, total =>
    if total < limit ∧ kept (feedKey t) < 2 then
      t :: greedySelect limit rest (fun k => if k = feedKey t then kept k + 1 else kept k)
        (total + 1)
    else greedySelect limit rest kept total

/-- The scanner phase flag (`scannerPhase` in src/server.js). -/
inductive ScanPhase where
  | idle
  | scanning
  | finished
deriving DecidableEq, Repr

/-- The process-wide scan state: phase plus `scanProgress`. -/
structure ScanState where
  phase : ScanPhase
  progressDone : Nat
  progressTotal : Nat
deriving DecidableEq, Repr

/-- The entry guard of `runBackgroundScan` (src/server.js lines 570-578):
an already-scanning state returns immediately (`false` = no scan started),
otherwise the phase flips to `scanning` and progress resets. -/
def runBackgroundScanStart (s : ScanState) (total : Nat) : ScanState × Bool :=
  if s.phase = ScanPhase.scanning then (s, false)
  else ({ phase := ScanPhase.scanning, progressDone := 0, progressTotal := total }, true)

/-- The entry guard of `runDeepBackfill` (src/server.js lines 653-660),
identical in shape to the shallow scan's guard. -/
def runDeepBackfillStart (s : ScanState) (total : Nat) : ScanState × Bool :=
  if s.phase = ScanPhase.scanning then (s, false)
  else ({ phase := ScanPhase.scanning, progressDone := 0, progressTotal := total }, true)

/-- Route-level outcome of a scan-trigger request. -/
inductive RouteResult where
  | badRequest
  | conflict
  | accepted
deriving DecidableEq, Repr

/-- The guard of `POST /api/backfill` (src/server.js lines 854-864):
400 when Helius is disabled, 409 when a scan is active, else accepted. -/
def backfillRoute (heliusEnabled : Bool) (s : ScanState) : RouteResult :=
  if !heliusEnabled then RouteResult.badRequest
  else if s.phase = ScanPhase.scanning then RouteResult.conflict
  else RouteResult.accepted

/-- The guard of `POST /api/deep-backfill` (src/server.js lines 872-883). -/
def deepBackfillRoute (heliusEnabled : Bool) (s : ScanState) : RouteResult :=
  if !heliusEnabled then RouteResult.badRequest
  else if s.phase = ScanPhase.scanning then RouteResult.conflict
  else RouteResult.accepted

/-- `tx.timestamp && tx.timestamp < sinceTimestamp` — a transaction with a
truthy (present and nonzero) timestamp older than the cutoff. -/
def olderThanCutoff (since : Nat) (tx : Tx) : Bool :=
  match tx.timestamp with
  | none => false
  | some t => t ≠ 0 && t < since

/-- The inner page scan of `fetchPaginatedTransactions` (src/server.js lines
210-217): push transactions until the first one older than the cutoff; the
flag reports whether the cutoff was reached. -/
def processPage (since : Nat) : List Tx → List Tx × Bool
  | [] => ([], false)
  | tx :: rest =>
    if olderThanCutoff since tx then ([], true)
    else
      let r := processPage since rest
      (tx :: r.1, r.2)

/-- `fetchPaginatedTransactions(wallet, sinceTimestamp, maxPages)`
(src/server.js lines 192-230) over the stream of pages the transaction
source would return (the HTTP/cursor machinery abstracted away; a fetch
failure is a truncated page stream). Stops on an empty page, on reaching
the cutoff, or on a short (< 100 transactions) page. -/
def fetchPages (since : Nat) : Nat → List (List Tx) → List Tx
  | 0, _ => []
  | _ + 1, [] => []
  | maxPages + 1, page :: rest =>
    if page.isEmpty then []
    else
      let pr := processPage since page
      if pr.2 || page.length < 100 then pr.1
      else pr.1 ++ fetchPages since maxPages rest

/-! ## Helper lemmas -/

theorem frac_ite_str (a b : String) : (if a ≠ "" then a else b) = (if a = "" then b else a) := by
  by_cases h : a = "" <;> simp [h]

theorem sigCount_append (tbl : List TradeRow) (r : TradeRow) (s : String) :
    sigCount (tbl ++ [r]) s = sigCount tbl s + (if r.signature = s then 1 else 0) := by
  simp only [sigCount, List.filter_append]
  by_cases h : r.signature = s <;> simp [h]

theorem sigCount_zero_any_false (tbl : List TradeRow) (s : String)
    (h : sigCount tbl s = 0) : tbl.any (fun x => x.signature = s) = false := by
  rw [List.any_eq_false]
  intro x hx
  have hf : tbl.filter (fun x => x.signature = s) = [] :=
    List.length_eq_zero.mp h
  have := List.filter_eq_nil_iff.mp hf x hx
  simpa using this

theorem assocFind_map_upsert (inc : MarketUpsert) (tbl : List (String × CacheRow))
    (old : CacheRow) (hold : assocFind tbl inc.mint = some old) :
    assocFind (tbl.map (fun p => if p.1 = inc.mint then (p.1, mergeRow p.2 inc) else p))
      inc.mint = some (mergeRow old inc) := by
  induction tbl with
  | nil => simp [assocFind] at hold
  | cons p rest ih =>
    by_cases hp : p.1 = inc.mint
    · simp only [assocFind, if_pos hp] at hold
      cases hold
      simp [assocFind, hp]
    · simp only [assocFind, if_neg hp] at hold
      simpa [assocFind, hp] using ih hold

/-! ## C3 — deny-listed symbols and mints are rejected -/

/-- C3: `isValidTrade` returns `false` for every trade whose `tokenSymbol` is
in the fixed `SKIP_TOKENS` deny-list, and for every trade whose `tokenMint`
is in the `SKIP_MINTS` deny-list, regardless of all other fields. -/
theorem isValidTrade_denylist (t : TradeResult)
    (h : (∃ s, t.tokenSymbol = some s ∧ s ∈ SKIP_TOKENS) ∨ t.tokenMint ∈ SKIP_MINTS) :
    isValidTrade (some t) = false := by
  rcases h with ⟨s, hs, hmem⟩ | hmint
  · have hc : SKIP_TOKENS.contains s = true := List.elem_eq_true_of_mem hmem
    simp only [isValidTrade, hs]
    repeat' split
    all_goals simp_all
  · have hc : SKIP_MINTS.contains t.tokenMint = true := List.elem_eq_true_of_mem hmint
    have hne : t.tokenMint ≠ "" := by
      intro he
      rw [he] at hmint
      simp [SKIP_MINTS] at hmint
    simp only [isValidTrade]
    repeat' split
    all_goals simp_all

/-- A fully well-formed Buy trade carrying the deny-listed symbol `USDC`. -/
def usdcTrade : TradeResult :=
  { signature := some "sig1", timestamp := some 1700000000, kolName := "Alice",
    kolAvatar := "/a.png", action := some TradeAction.buy, tokenSymbol := some "USDC",
    tokenMint := "", tokenAmount := Frac.ofInt 5, amountSol := some (Frac.ofInt 2) }

/-- C3 witness: the deny-list hypothesis holds for `usdcTrade` and the filter
rejects it. -/
theorem isValidTrade_denylist_witness : isValidTrade (some usdcTrade) = false :=
  isValidTrade_denylist usdcTrade (Or.inl ⟨"USDC", rfl, by decide⟩)

/-! ## C4 — duplicate-signature inserts are silent no-ops -/

/-- C4: inserting a trade whose signature matches an already-stored one is a
no-op (the operation is a total function, hence never an error); after a
first insert into a signature-free table and a duplicate second insert,
exactly one row with that signature exists; and every insert preserves the
signature-uniqueness invariant. -/
theorem insertTrade_dup_noop (tbl : List TradeRow) (r r' : TradeRow)
    (hsig : r'.signature = r.signature) :
    (r ∈ tbl → insertTrade tbl r' = tbl) ∧
    (sigCount tbl r.signature = 0 →
      insertTrade (insertTrade tbl r) r' = insertTrade tbl r ∧
      sigCount (insertTrade (insertTrade tbl r) r') r.signature = 1) ∧
    (sigUnique tbl → sigUnique (insertTrade tbl r')) := by
  refine ⟨?_, ?_, ?_⟩
  · intro hr
    have hany : tbl.any (fun x => x.signature = r'.signature) = true :=
      List.any_eq_true.mpr ⟨r, hr, by simp [hsig]⟩
    simp [insertTrade, hany]
  · intro h0
    have hany : tbl.any (fun x => x.signature = r.signature) = false :=
      sigCount_zero_any_false tbl r.signature h0
    have hfirst : insertTrade tbl r = tbl ++ [r] := by simp [insertTrade, hany]
    have hmem : r ∈ tbl ++ [r] := by simp
    have hany2 : (tbl ++ [r]).any (fun x => x.signature = r'.signature) = true :=
      List.any_eq_true.mpr ⟨r, hmem, by simp [hsig]⟩
    constructor
    · rw [hfirst]
      simp [insertTrade, hany2]
    · rw [hfirst]
      simp only [insertTrade, hany2, if_pos]
      rw [sigCount_append, h0]
      simp
  · intro hu s
    by_cases hany : tbl.any (fun x => x.signature = r'.signature) = true
    · simpa [insertTrade, hany] using hu s
    · have hany' : tbl.any (fun x => x.signature = r'.signature) = false := by
        simpa using hany
      have : insertTrade tbl r' = tbl ++ [r'] := by simp [insertTrade, hany']
      rw [this, sigCount_append]
      by_cases hs : r'.signature = s
      · have h0 : sigCount tbl s = 0 := by
          have := List.any_eq_false.mp hany'
          have hf : tbl.filter (fun x => x.signature = s) = [] := by
            rw [List.filter_eq_nil_iff]
            intro x hx
            have hxs := this x hx
            simp only [hs] at hxs
            simpa using hxs
          simp [sigCount, hf]
        simp [h0, hs]
      · simpa [hs] using hu s

/-- Two distinct trades sharing the signature `"dup"`. -/
def rowA : TradeRow :=
  { wallet := "w1", kolName := "Alice", kolAvatar := "", action := "Buy",
    tokenSymbol := "PEPE", amountSol := Frac.ofInt 2, signature := "dup",
    txTimestamp := 100, tokenMint := "M1", tokenAmount := Frac.ofInt 10 }

/-- Same signature as `rowA`, different fields. -/
def rowB : TradeRow :=
  { wallet := "w2", kolName := "Bob", kolAvatar := "", action := "Sell",
    tokenSymbol := "DOGE", amountSol := Frac.ofInt 3, signature := "dup",
    txTimestamp := 200, tokenMint := "M2", tokenAmount := Frac.ofInt 20 }

/-- C4 witness: on the empty table, inserting `rowA` then the
duplicate-signature `rowB` keeps exactly the one original row. -/
theorem insertTrade_dup_noop_witness :
    insertTrade (insertTrade [] rowA) rowB = insertTrade [] rowA ∧
    sigCount (insertTrade (insertTrade [] rowA) rowB) rowA.signature = 1 :=
  (insertTrade_dup_noop [] rowA rowB rfl).2.1 (by decide)

/-! ## C7 — token-cache merge upsert -/

/-- C7: a market-data upsert for an existing mint always overwrites `mcap`,
`price_usd` and `price_change_24h`, while `name`, `symbol` and `image` keep
the stored value exactly when the incoming value is the empty string. -/
theorem upsertTokenMarketData_merge (tbl : List (String × CacheRow))
    (inc : MarketUpsert) (old : CacheRow)
    (hold : assocFind tbl inc.mint = some old) :
    assocFind (upsertTokenMarketData tbl inc) inc.mint =
      some { name := if inc.name = "" then old.name else inc.name,
             symbol := if inc.symbol = "" then old.symbol else inc.symbol,
             image := if inc.image = "" then old.image else inc.image,
             mcap := inc.mcap, priceUsd := inc.priceUsd,
             priceChange24h := inc.priceChange24h } := by
  unfold upsertTokenMarketData
  rw [hold, assocFind_map_upsert inc tbl old hold]
  unfold mergeRow
  rw [frac_ite_str, frac_ite_str, frac_ite_str]

/-- A cache row named `"Foo"` with stale market data. -/
def fooRow : CacheRow :=
  { name := "Foo", symbol := "FOO", image := "/foo.png",
    mcap := Frac.ofInt 0, priceUsd := Frac.ofInt 0, priceChange24h := Frac.ofInt 0 }

/-- A market-data upsert for `fooRow`'s mint with empty identity fields. -/
def fooUpsert : MarketUpsert :=
  { mint := "MFOO", name := "", symbol := "", image := "",
    mcap := Frac.ofInt 1000, priceUsd := ⟨5, 100⟩, priceChange24h := ⟨-3, 2⟩ }

/-- C7 witness: the row keeps name `"Foo"` (and symbol/image) while all three
market fields are overwritten. -/
theorem upsertTokenMarketData_merge_witness :
    assocFind (upsertTokenMarketData [("MFOO", fooRow)] fooUpsert) fooUpsert.mint =
      some { name := "Foo", symbol := "FOO", image := "/foo.png",
             mcap := Frac.ofInt 1000, priceUsd := ⟨5, 100⟩,
             priceChange24h := ⟨-3, 2⟩ } :=
  upsertTokenMarketData_merge [("MFOO", fooRow)] fooUpsert fooRow (by decide)

/-! ## C9 — scan mutual exclusion -/

/-- C9: while the scanner phase is `scanning`, both scan entry points return
immediately without starting (state unchanged, `false`), and both trigger
routes refuse the request (no queueing exists: the functions return at
once), so a second scan can never enter the `scanning` state concurrently. -/
theorem scanGuard_mutex (s : ScanState) (total : Nat) (enabled : Bool)
    (h : s.phase = ScanPhase.scanning) :
    runBackgroundScanStart s total = (s, false) ∧
    runDeepBackfillStart s total = (s, false) ∧
    backfillRoute enabled s ≠ RouteResult.accepted ∧
    deepBackfillRoute enabled s ≠ RouteResult.accepted := by
  refine ⟨?_, ?_, ?_, ?_⟩ <;>
    cases enabled <;>
      simp [runBackgroundScanStart, runDeepBackfillStart, backfillRoute,
            deepBackfillRoute, h]

/-- A scan state captured mid-scan. -/
def midScan : ScanState := { phase := ScanPhase.scanning, progressDone := 3, progressTotal := 10 }

/-- C9 witness: with a scan active, a deep-backfill trigger is rejected and
no state transition happens. -/
theorem scanGuard_mutex_witness :
    runBackgroundScanStart midScan 7 = (midScan, false) ∧
    runDeepBackfillStart midScan 7 = (midScan, false) ∧
    backfillRoute true midScan ≠ RouteResult.accepted ∧
    deepBackfillRoute true midScan ≠ RouteResult.accepted :=
  scanGuard_mutex midScan 7 true rfl

/-! ## C6 — wrapped-SOL mint resolution -/

/-- The `uncached` filter of `batchGetTokenMetadata` (src/server.js lines
234-237): mints to fetch from the network — never the wrapped-SOL mint,
never an already-cached mint. -/
def uncachedMints (cache : String → Option CacheRow) (mints : List String) : List String :=
  mints.filter (fun m => if m = SOL_MINT then false else (cache m).isNone)

/-- The `results` assembly of `batchGetTokenMetadata` (src/server.js lines
264-275), over the cache state after the fetch: the wrapped-SOL mint maps to
the fixed `{Wrapped SOL, SOL}` metadata without a cache lookup; every other
mint maps to its cached entry or to `null`. -/
def batchMetadataResults (cache : String → Option CacheRow) (mints : List String) :
    List (String × Option TokenMeta) :=
  mints.map (fun mint =>
    if mint = SOL_MINT then
      (mint, some { name := "Wrapped SOL", symbol := "SOL", image := "" })
    else
      match cache mint with
      | some c => (mint, some { name := c.name, symbol := c.symbol, image := c.image })
      | none => (mint, none))

/-- The empty token cache. -/
def emptyCache : String → Option CacheRow := fun _ => none

/-- A metadata map that even carries a `SOL` entry for the wrapped-SOL mint. -/
def solMetaMap : MetaMap :=
  some [(SOL_MINT, some { name := "Wrapped SOL", symbol := "SOL", image := "" })]

/-- C6 counterexample: `resolveSymbol` applied to the wrapped-SOL mint
returns `null`, not the symbol `"SOL"` — even when the metadata map maps
the mint to `SOL`. -/
theorem resolveSymbol_sol_counterexample :
    resolveSymbol solMetaMap emptyCache SOL_MINT = none ∧
    resolveSymbol solMetaMap emptyCache SOL_MINT ≠ some "SOL" := by decide

/-- C6 amended: `resolveSymbol` returns `null` on the wrapped-SOL mint for
every metadata map and cache; it is `batchGetTokenMetadata` that maps the
wrapped-SOL mint to the fixed symbol `"SOL"`, without a cache lookup and
without fetching it (the mint is excluded from the uncached fetch list). -/
theorem solMint_resolution (mm : MetaMap) (cache : String → Option CacheRow)
    (mints : List String) (h : SOL_MINT ∈ mints) :
    resolveSymbol mm cache SOL_MINT = none ∧
    assocFind (batchMetadataResults cache mints) SOL_MINT =
      some (some { name := "Wrapped SOL", symbol := "SOL", image := "" }) ∧
    SOL_MINT ∉ uncachedMints cache mints := by
  refine ⟨by simp [resolveSymbol], ?_, ?_⟩
  · induction mints with
    | nil => cases h
    | cons m rest ih =>
      by_cases hm : m = SOL_MINT
      · subst hm
        simp [batchMetadataResults, assocFind]
      · rcases List.mem_cons.mp h with he | hrest
        · exact absurd he.symm hm
        · cases hc : cache m <;>
            simpa [batchMetadataResults, assocFind, hm, hc] using ih hrest
  · simp [uncachedMints, List.mem_filter]

/-- C6 witness: with the wrapped-SOL mint in the batch, the fetch-results
map fixes it to `SOL` while `resolveSymbol` yields `null`. -/
theorem solMint_resolution_witness :
    resolveSymbol solMetaMap emptyCache SOL_MINT = none ∧
    assocFind (batchMetadataResults emptyCache [SOL_MINT, "MINTX"]) SOL_MINT =
      some (some { name := "Wrapped SOL", symbol := "SOL", image := "" }) ∧
    SOL_MINT ∉ uncachedMints emptyCache [SOL_MINT, "MINTX"] :=
  solMint_resolution solMetaMap emptyCache [SOL_MINT, "MINTX"] (by decide)

/-! ## C5 — the classifier pre-filter -/

/-- C5 amended: `classify` returns `null` for every transaction whose
declared type is in the fixed non-trade set, and for every transaction whose
lower-cased description contains `' transferred '` (with surrounding spaces)
without containing `'swap'`, or starts with `'burned '`, `'close '` or
`'staked '` (each with a trailing space). -/
theorem parseTransaction_prefilter (tx : Tx) (kolName kolAvatar : Option String)
    (wallet : String) (mm : MetaMap) (cache : String → Option CacheRow) :
    (∀ ty, tx.type = some ty → ty ∈ NON_TRADE_TYPES →
      parseTransaction tx kolName kolAvatar wallet mm cache = none) ∧
    (∀ d, tx.description = some d →
      ((strContains (strToLower d) " transferred " = true ∧
        strContains (strToLower d) "swap" = false) ∨
       strStarts (strToLower d) "burned " = true ∨
       strStarts (strToLower d) "close " = true ∨
       strStarts (strToLower d) "staked " = true) →
      parseTransaction tx kolName kolAvatar wallet mm cache = none) := by
  constructor
  · intro ty hty hmem
    have hne : ty ≠ "" := by
      rintro rfl
      revert hmem
      decide
    have hhit : nonTradeTypeHit tx = true := by
      simp [nonTradeTypeHit, hty, hne]
      exact hmem
    simp [parseTransaction, hhit]
  · intro d hd hcond
    have hhit : descPrefilterHit tx = true := by
      simp only [descPrefilterHit, hd]
      rcases hcond with ⟨h1, h2⟩ | h | h | h
      · simp [h1, h2]
      · simp [h]
      · simp [h]
      · simp [h]
    cases hb : nonTradeTypeHit tx <;> simp [parseTransaction, hb, hhit]

/-- A transfer-typed transaction. -/
def transferTx : Tx := { emptyTx with type := some "TRANSFER" }

/-- A plain-transfer description (with the surrounding spaces the code
checks for). -/
def transferDescTx : Tx := { emptyTx with description := some "Alice transferred 5 SOL to Bob" }

/-- C5 witness: the pre-filter nulls out a `TRANSFER`-typed transaction and
a `'... transferred ...'` description. -/
theorem parseTransaction_prefilter_witness :
    parseTransaction transferTx none none "" none emptyCache = none ∧
    parseTransaction transferDescTx none none "" none emptyCache = none :=
  ⟨(parseTransaction_prefilter transferTx none none "" none emptyCache).1
      "TRANSFER" rfl (by decide),
   (parseTransaction_prefilter transferDescTx none none "" none emptyCache).2
      "Alice transferred 5 SOL to Bob" rfl (Or.inl ⟨by decide, by decide⟩)⟩

/-- A swap-event token-output leg: 1,000,000 raw units at 6 decimals of the
mint `MINTX`. -/
def pepeLeg : SwapLeg :=
  { mint := some "MINTX",
    rawTokenAmount := some { tokenAmount := Frac.ofInt 1000000, decimals := some 6 },
    tokenAmount := none }

/-- A structured swap event: 1.5 SOL (1,500,000,000 lamports) in, `pepeLeg`
out. -/
def pepeSwap : SwapEvent :=
  { nativeInput := some { amount := Frac.ofInt 1500000000 }, nativeOutput := none,
    tokenInputs := none, tokenOutputs := some [pepeLeg] }

/-- A metadata map resolving `MINTX` to the symbol `PEPE`. -/
def pepeMetaMap : MetaMap :=
  some [("MINTX", some { name := "Pepe", symbol := "PEPE", image := "" })]

/-- A transaction whose description contains `"transferred"` (at the start,
so without a leading space) and not `"swap"`, yet carrying a structured swap
event. -/
def transferredSwapTx : Tx :=
  { emptyTx with description := some "transferred tokens", eventsSwap := some pepeSwap }

/-- C5 counterexample: the description contains `"transferred"` and no
`"swap"`, but `classify` still returns a trade — the code only nulls out
descriptions containing `' transferred '` with surrounding spaces. -/
theorem parseTransaction_prefilter_counterexample :
    strContains (strToLower "transferred tokens") "transferred" = true ∧
    strContains (strToLower "transferred tokens") "swap" = false ∧
    (parseTransaction transferredSwapTx none none "" pepeMetaMap emptyCache).isSome = true := by
  decide

/-! ## C2 — structured swap event: 1.5 SOL in, 1e6 raw units at 6 decimals out -/

/-- C2: for every transaction carrying a structured swap event whose native
input is 1.5 SOL (1,500,000,000 lamports) and whose token output leg is
1,000,000 raw units at 6 decimals of a (non-SOL, truthy) mint whose symbol
resolves to a usable value, `classify` returns a trade with action `Buy`,
`amountSol` equal to 1.5 and `tokenAmount` equal to 1 (the raw amount
divided by `10^decimals`). -/
theorem parseTransaction_swapEvent_buy (sig : Option String) (ts : Option Nat)
    (kolName kolAvatar : Option String) (wallet : String)
    (mm : MetaMap) (cache : String → Option CacheRow)
    (nOutLeg : Option NativeLeg) (tIns : Option (List SwapLeg))
    (nts : Option (List NativeTransfer)) (tts : Option (List TokenTransfer))
    (m sym : String) (hm1 : m ≠ "") (hm2 : m ≠ SOL_MINT)
    (hres : resolveSymbol mm cache m = some sym) (hsym : sym ≠ "") :
    (parseTransaction
      ⟨sig, ts, none, none, nts, tts,
       some ⟨some ⟨Frac.ofInt 1500000000⟩, nOutLeg, tIns,
             some [⟨some m, some ⟨Frac.ofInt 1000000, some 6⟩, none⟩]⟩⟩
      kolName kolAvatar wallet mm cache).map
      (fun r => (r.action, (r.amountSol.getD (Frac.ofInt 0)).eqv ⟨3, 2⟩,
                 r.tokenAmount.eqv (Frac.ofInt 1), r.tokenSymbol)) =
      some (some TradeAction.buy, true, true, some sym) := by
  have hfind : (some m ≠ some SOL_MINT) := by simpa using hm2
  simp [parseTransaction, strategy0Swap, baseResult, nonTradeTypeHit,
        descPrefilterHit, conclusiveCheck, legAmount, jsOrStr, jsOrOptStr,
        jsStrTruthy, jsNumPos, symbolFromDescription, roundTo4, LAMPORTS, pow10,
        Frac.ofInt, Frac.div, Frac.mul, Frac.add, Frac.pos, Frac.floor, Frac.eqv,
        Frac.abs, Frac.isZero, hm1, hm2, hres, hsym, hfind]

/-- The C2 transaction at concrete parameters. -/
def pepeBuyTx : Tx := { emptyTx with eventsSwap := some pepeSwap }

/-- C2 witness: the concrete 1.5-SOL swap-event transaction classifies as a
Buy of 1.5 SOL for 1.0 `PEPE`. -/
theorem parseTransaction_swapEvent_buy_witness :
    (parseTransaction pepeBuyTx none none "" pepeMetaMap emptyCache).map
      (fun r => (r.action, (r.amountSol.getD (Frac.ofInt 0)).eqv ⟨3, 2⟩,
                 r.tokenAmount.eqv (Frac.ofInt 1), r.tokenSymbol)) =
      some (some TradeAction.buy, true, true, some "PEPE") :=
  parseTransaction_swapEvent_buy none none none none "" pepeMetaMap emptyCache
    none none none none "MINTX" "PEPE" (by decide) (by decide) (by decide) (by decide)

/-! ## C1 — non-null classification results -/

theorem action_two_cases (o : Option TradeAction) (h : o.isSome = true) :
    o = some TradeAction.buy ∨ o = some TradeAction.sell := by
  cases o with
  | none => simp at h
  | some a => cases a
              · exact Or.inl rfl
              · exact Or.inr rfl

theorem truthy_ne_none (o : Option String) (h : jsStrTruthy o = true) : o ≠ none := by
  cases o <;> simp [jsStrTruthy] at h ⊢

theorem strategy1Desc_some (mm : MetaMap) (base : TradeResult)
    (primary : String × Frac) (amt1 tok1 amt2 tok2 : String) (r : TradeResult)
    (h : strategy1Desc mm base primary amt1 tok1 amt2 tok2 = some r) :
    (r.action = some TradeAction.buy ∨ r.action = some TradeAction.sell) ∧
    r.tokenSymbol ≠ none := by
  simp only [strategy1Desc] at h
  split at h
  · injection h with hr
    subst hr
    exact ⟨Or.inl rfl, by simp⟩
  split at h
  · injection h with hr
    subst hr
    exact ⟨Or.inr rfl, by simp⟩
  · exact Option.noConfusion h

theorem strategy2Net_some (tx : Tx) (mm : MetaMap) (cache : String → Option CacheRow)
    (wallet : String) (a : TradeResult) (r : TradeResult)
    (h : strategy2Net tx mm cache wallet a = some r) :
    r.action.isSome = true ∧ jsNumPos r.amountSol = true ∧
    jsStrTruthy r.tokenSymbol = true := by
  simp only [strategy2Net] at h
  split at h
  · split at h
    case isTrue hlen =>
      split at h
      case isTrue hguard =>
        split at h
        case isTrue htr =>
          injection h with hr
          subst hr
          simp only [Bool.and_eq_true] at hguard
          exact ⟨by simpa using hguard.1, by simpa using hguard.2, by simpa using htr⟩
        case isFalse _ => exact Option.noConfusion h
      case isFalse _ => exact Option.noConfusion h
    case isFalse _ => exact Option.noConfusion h
  · exact Option.noConfusion h

/-- C1 amended: whenever `classify` returns a non-null result, its action is
exactly one of `Buy`/`Sell` (never null) and its token symbol is non-null;
its SOL amount is strictly positive whenever the description does not match
the swap pattern (i.e. for results of the swap-event and net-balance
strategies) — a description-pattern result instead carries whatever SOL
amount the description parsed, which can be 0. -/
theorem parseTransaction_conclusive (tx : Tx) (kolName kolAvatar : Option String)
    (wallet : String) (mm : MetaMap) (cache : String → Option CacheRow)
    (r : TradeResult)
    (h : parseTransaction tx kolName kolAvatar wallet mm cache = some r) :
    (r.action = some TradeAction.buy ∨ r.action = some TradeAction.sell) ∧
    r.tokenSymbol ≠ none ∧
    (tx.description.bind (fun d => descSwapMatch d) = none →
      jsNumPos r.amountSol = true) := by
  simp only [parseTransaction] at h
  split at h
  · exact absurd h (by simp)
  split at h
  · exact absurd h (by simp)
  split at h
  case isTrue hconc =>
    injection h with hr
    subst hr
    simp only [conclusiveCheck, Bool.and_eq_true] at hconc
    obtain ⟨⟨ha, hp⟩, hs⟩ := hconc
    exact ⟨action_two_cases _ ha, truthy_ne_none _ hs, fun _ => hp⟩
  case isFalse hnc =>
    split at h
    · rename_i heq
      obtain ⟨h1, h2⟩ := strategy1Desc_some _ _ _ _ _ _ _ _ h
      refine ⟨h1, h2, fun hnone => ?_⟩
      rw [heq] at hnone
      exact Option.noConfusion hnone
    · obtain ⟨h1, h2, h3⟩ := strategy2Net_some _ _ _ _ _ _ h
      exact ⟨action_two_cases _ h1, truthy_ne_none _ h3, fun _ => h2⟩

/-- A swap description whose SOL side parses to 0. -/
def zeroSolSwapTx : Tx := { emptyTx with description := some "swapped 0 SOL for 100 PEPE" }

/-- C1 counterexample: a description-pattern match with a parsed SOL amount
of 0 yields a non-null result whose SOL amount is not strictly positive. -/
theorem parseTransaction_conclusive_counterexample :
    (parseTransaction zeroSolSwapTx none none "" none emptyCache).map
      (fun r => (r.action, r.amountSol, jsNumPos r.amountSol)) =
      some (some TradeAction.buy, some (Frac.ofInt 0), false) := by decide

/-- The concrete result of classifying `pepeBuyTx`. -/
def pepeResult : TradeResult :=
  { signature := none, timestamp := none, kolName := "Unknown",
    kolAvatar := "/logo.png", action := some TradeAction.buy,
    tokenSymbol := some "PEPE", tokenMint := "MINTX",
    tokenAmount := ⟨1000000, 1000000⟩, amountSol := some ⟨15000, 10000⟩ }

/-- C1 witness: the swap-event Buy satisfies the amended conclusions. -/
theorem parseTransaction_conclusive_witness :
    parseTransaction pepeBuyTx none none "" pepeMetaMap emptyCache = some pepeResult ∧
    ((pepeResult.action = some TradeAction.buy ∨
      pepeResult.action = some TradeAction.sell) ∧
     pepeResult.tokenSymbol ≠ none ∧
     (pepeBuyTx.description.bind (fun d => descSwapMatch d) = none →
       jsNumPos pepeResult.amountSol = true)) :=
  ⟨by decide,
   parseTransaction_conclusive pepeBuyTx none none "" pepeMetaMap emptyCache
     pepeResult (by decide)⟩

/-! ## C8 — recent-trades feed diversity cap -/

theorem greedySelect_of_full (limit : Nat) (ts : List FeedRow) :
    ∀ (kept : String → Nat) (total : Nat), limit ≤ total →
    greedySelect limit ts kept total = [] := by
  induction ts with
  | nil => intro kept total _; rfl
  | cons t rest ih =>
    intro kept total h
    simp only [greedySelect]
    rw [if_neg]
    · exact ih _ _ h
    · rintro ⟨h1, _⟩
      omega

theorem diversityLoop_eq_greedy (limit : Nat) (ts : List FeedRow) :
    ∀ (counts kept : String → Nat) (acc : List FeedRow),
    (∀ k, kept k = min (counts k) 2) → acc.length < limit →
    diversityLoop limit ts counts acc = acc ++ greedySelect limit ts kept acc.length := by
  induction ts with
  | nil =>
    intro counts kept acc hk hl
    simp [diversityLoop, greedySelect]
  | cons t rest ih =>
    intro counts kept acc hk hl
    simp only [diversityLoop, greedySelect]
    by_cases hc : counts (feedKey t) + 1 ≤ 2
    · have hkept : kept (feedKey t) < 2 := by
        have := hk (feedKey t)
        omega
      rw [if_pos hc]
      rw [if_pos (show acc.length < limit ∧ kept (feedKey t) < 2 from ⟨hl, hkept⟩)]
      by_cases hfull : limit ≤ (acc ++ [t]).length
      · rw [if_pos hfull]
        rw [greedySelect_of_full limit rest _ _ (by simp at hfull ⊢; omega)]
      · rw [if_neg hfull]
        have hinv : ∀ k, (fun k => if k = feedKey t then kept k + 1 else kept k) k =
            min ((fun k => if k = feedKey t then counts (feedKey t) + 1 else counts k) k) 2 := by
          intro k
          by_cases hkk : k = feedKey t
          · subst hkk
            simp only [eq_self_iff_true, if_true]
            have := hk (feedKey t)
            omega
          · simp only [if_neg hkk]
            exact hk k
        have hlen : (acc ++ [t]).length < limit := by
          simp at hfull ⊢
          omega
        rw [ih _ _ _ hinv hlen]
        simp
    · have hkept : ¬ kept (feedKey t) < 2 := by
        have := hk (feedKey t)
        omega
      rw [if_neg hc]
      rw [if_neg (show ¬(acc.length < limit ∧ kept (feedKey t) < 2) from
            fun hco => hkept hco.2)]
      rw [if_neg (show ¬ limit ≤ acc.length from by omega)]
      have hinv : ∀ k, kept k =
          min ((fun k => if k = feedKey t then counts (feedKey t) + 1 else counts k) k) 2 := by
        intro k
        by_cases hkk : k = feedKey t
        · subst hkk
          simp only [eq_self_iff_true, if_true]
          have := hk (feedKey t)
          omega
        · simp only [if_neg hkk]
          exact hk k
      exact ih _ _ _ hinv hl

theorem greedySelect_length (limit : Nat) (ts : List FeedRow) :
    ∀ (kept : String → Nat) (total : Nat),
    (greedySelect limit ts kept total).length ≤ limit - total := by
  induction ts with
  | nil => intro kept total; simp [greedySelect]
  | cons t rest ih =>
    intro kept total
    simp only [greedySelect]
    split
    case isTrue hcond =>
      obtain ⟨h1, _⟩ := hcond
      have := ih (fun k => if k = feedKey t then kept k + 1 else kept k) (total + 1)
      simp only [List.length_cons]
      omega
    case isFalse _ => exact ih kept total

theorem greedySelect_keyCount (limit : Nat) (ts : List FeedRow) (k : String) :
    ∀ (kept : String → Nat) (total : Nat),
    ((greedySelect limit ts kept total).filter (fun t => feedKey t = k)).length ≤
      2 - kept k := by
  induction ts with
  | nil => intro kept total; simp [greedySelect]
  | cons t rest ih =>
    intro kept total
    simp only [greedySelect]
    split
    case isTrue hcond =>
      by_cases hkey : feedKey t = k
      · have hrec := ih (fun q => if q = feedKey t then kept q + 1 else kept q) (total + 1)
        rw [if_pos hkey.symm] at hrec
        have hlt : kept k < 2 := hkey ▸ hcond.2
        simp only [List.filter_cons]
        rw [if_pos (by simp [hkey])]
        simp only [List.length_cons]
        omega
      · have hrec := ih (fun q => if q = feedKey t then kept q + 1 else kept q) (total + 1)
        rw [if_neg (fun he => hkey he.symm)] at hrec
        simp only [List.filter_cons]
        rw [if_neg (by simp [hkey])]
        exact hrec
    case isFalse _ => exact ih kept total

/-- C8: for every stored (newest-first) trade list and every requested page
size `limit ≥ 1` (the route turns a missing/zero limit into 20, so the
effective limit is never 0), the feed's diversity stage equals the greedy
selection that keeps a trade exactly when fewer than 2 trades of its KOL key
have been kept and the page is not yet full; consequently it returns at most
`limit` trades and at most 2 per KOL key. -/
theorem feedDiversity_spec (limit : Nat) (ts : List FeedRow) (h : 1 ≤ limit) :
    feedDiversity limit ts = greedySelect limit ts (fun _ => 0) 0 ∧
    (feedDiversity limit ts).length ≤ limit ∧
    (∀ k, ((feedDiversity limit ts).filter (fun t => feedKey t = k)).length ≤ 2) := by
  have heq : feedDiversity limit ts = greedySelect limit ts (fun _ => 0) 0 := by
    have := diversityLoop_eq_greedy limit ts (fun _ => 0) (fun _ => 0) []
      (by intro k; simp) (by simpa using h)
    simpa [feedDiversity] using this
  refine ⟨heq, ?_, ?_⟩
  · rw [heq]
    have := greedySelect_length limit ts (fun _ => 0) 0
    omega
  · intro k
    rw [heq]
    have := greedySelect_keyCount limit ts k (fun _ => 0) 0
    omega

/-- Six newest-first feed rows: five for KOL `X`, then one for KOL `Y`. -/
def feedXY : List FeedRow :=
  [⟨"X", "w", "s1"⟩, ⟨"X", "w", "s2"⟩, ⟨"X", "w", "s3"⟩,
   ⟨"X", "w", "s4"⟩, ⟨"X", "w", "s5"⟩, ⟨"Y", "v", "s6"⟩]

/-- C8 witness: a page of size 3 over `feedXY` obeys the greedy
characterisation, the page bound and the 2-per-KOL cap. -/
theorem feedDiversity_spec_witness :
    feedDiversity 3 feedXY = greedySelect 3 feedXY (fun _ => 0) 0 ∧
    (feedDiversity 3 feedXY).length ≤ 3 ∧
    (∀ k, ((feedDiversity 3 feedXY).filter (fun t => feedKey t = k)).length ≤ 2) :=
  feedDiversity_spec 3 feedXY (by decide)

/-! ## C10 — deep-backfill pagination cutoff -/

theorem processPage_mem (since : Nat) :
    ∀ (page : List Tx) (tx : Tx), tx ∈ (processPage since page).1 →
    olderThanCutoff since tx = false := by
  intro page
  induction page with
  | nil => intro tx h; simp [processPage] at h
  | cons hd rest ih =>
    intro tx h
    simp only [processPage] at h
    split at h
    · simp at h
    · rcases List.mem_cons.mp h with he | hm
      · subst he
        simp_all
      · exact ih tx hm

theorem olderThanCutoff_false_cases (since : Nat) (tx : Tx)
    (h : olderThanCutoff since tx = false) :
    tx.timestamp = none ∨ tx.timestamp = some 0 ∨
    ∃ t, tx.timestamp = some t ∧ since ≤ t := by
  cases hts : tx.timestamp with
  | none => exact Or.inl rfl
  | some t =>
    simp only [olderThanCutoff, hts, Bool.and_eq_false_iff] at h
    by_cases ht0 : t = 0
    · subst ht0
      exact Or.inr (Or.inl rfl)
    · refine Or.inr (Or.inr ⟨t, rfl, ?_⟩)
      rcases h with h | h
      · simp_all
      · simpa using h

theorem processPage_eq_takeWhile (since : Nat) (page : List Tx) :
    (processPage since page).1 =
      page.takeWhile (fun tx => !olderThanCutoff since tx) := by
  induction page with
  | nil => rfl
  | cons tx rest ih =>
    simp only [processPage, List.takeWhile_cons]
    by_cases h : olderThanCutoff since tx = true
    · simp [h]
    · simp only [Bool.not_eq_true] at h
      simp [h, ih]

/-- C10 amended: every transaction returned by the pagination fetch either
lacks a timestamp, has the (falsy) timestamp 0, or is no older than the
cutoff; within a page the kept transactions are exactly the prefix before
the first one with a truthy timestamp older than the cutoff; and once a
non-empty page reaches the cutoff the fetch returns just that prefix —
pagination stops, later pages contribute nothing. -/
theorem fetchPages_cutoff (since : Nat) (maxPages : Nat) (pages : List (List Tx)) :
    (∀ tx ∈ fetchPages since maxPages pages,
      tx.timestamp = none ∨ tx.timestamp = some 0 ∨
      ∃ t, tx.timestamp = some t ∧ since ≤ t) ∧
    (∀ page, (processPage since page).1 =
      page.takeWhile (fun tx => !olderThanCutoff since tx)) ∧
    (∀ n page rest, page.isEmpty = false → (processPage since page).2 = true →
      fetchPages since (n + 1) (page :: rest) = (processPage since page).1) := by
  refine ⟨?_, fun page => processPage_eq_takeWhile since page, ?_⟩
  · intro tx h
    refine olderThanCutoff_false_cases since tx ?_
    induction maxPages generalizing pages with
    | zero => simp [fetchPages] at h
    | succ n ih =>
      cases pages with
      | nil => simp [fetchPages] at h
      | cons page rest =>
        simp only [fetchPages] at h
        split at h
        · simp at h
        · split at h
          · exact processPage_mem since page tx h
          · rcases List.mem_append.mp h with h1 | h2
            · exact processPage_mem since page tx h1
            · exact ih rest h2
  · intro n page rest hne hcut
    simp [fetchPages, hne, hcut]

/-- A transaction carrying the falsy timestamp 0. -/
def zeroTsTx : Tx := { emptyTx with signature := some "s0", timestamp := some 0 }

/-- C10 counterexample: with cutoff 10, a page containing a transaction with
timestamp 0 keeps it, although it has a timestamp and that timestamp is
older than the cutoff. -/
theorem fetchPages_cutoff_counterexample :
    zeroTsTx ∈ fetchPages 10 1 [[zeroTsTx]] ∧
    zeroTsTx.timestamp = some 0 ∧ (0 : Nat) < 10 := by decide

/-- A transaction newer than the cutoff 10. -/
def newTsTx : Tx := { emptyTx with signature := some "s5", timestamp := some 50 }

/-- A transaction older than the cutoff 10. -/
def oldTsTx : Tx := { emptyTx with signature := some "s1", timestamp := some 5 }

/-- C10 witness: a kept transaction satisfies the timestamp trichotomy, and
a page that reaches the cutoff stops the fetch with just its kept prefix. -/
theorem fetchPages_cutoff_witness :
    (newTsTx.timestamp = none ∨ newTsTx.timestamp = some 0 ∨
      ∃ t, newTsTx.timestamp = some t ∧ 10 ≤ t) ∧
    fetchPages 10 3 [[newTsTx, oldTsTx], [zeroTsTx]] =
      (processPage 10 [newTsTx, oldTsTx]).1 :=
  ⟨(fetchPages_cutoff 10 1 [[newTsTx]]).1 newTsTx (by decide),
   (fetchPages_cutoff 10 0 []).2.2 2 [newTsTx, oldTsTx] [[zeroTsTx]]
     (by decide) (by decide)⟩
